import Mathlib

/-!
Verification development for the `ld_audit` feature-flag audit tool.

Shallow embedding of the flag data model (`src/ld_audit/models.py`), the
staleness classifier (`src/ld_audit/flag_service.py`), the environment
resolver (`src/ld_audit/cli.py`, `get_primary_env`) and the per-file part of
the codebase scanner (`src/ld_audit/file_search.py`).

Modelling conventions:
* Python `datetime.datetime` values are modelled as rational numbers of
  seconds since the epoch (`datetime` arithmetic on seconds/days is exact, and
  the model treats `datetime.fromtimestamp` as the exact division by 1000 of
  the millisecond payload; the IEEE-754 rounding of `ms / 1000.0` and the
  host-local-time conversion performed by the real `fromtimestamp` are
  deliberately outside this model).
* Python `dict`s in payloads are modelled as structures with `Option` fields
  (`none` = key absent); the `environments` dict is an insertion-ordered
  association list, matching Python dict iteration order.
* `dict.get(k, d)` becomes `Option.getD`; `data["key"]` raising `KeyError`
  becomes an `Option`-returning parser.
-/

namespace LdAudit

/-- Python `datetime.datetime`, modelled as exact seconds since the epoch. -/
abbrev Datetime := ℚ

/-- Maintainer of a flag (`models.Maintainer`). -/
structure Maintainer where
  first_name : String
  last_name : Option String
  email : Option String
deriving DecidableEq

/-- Raw maintainer payload: a dict with optional `firstName`, `lastName`, `email`. -/
structure RawMaintainer where
  firstName : Option String
  lastName : Option String
  email : Option String
deriving DecidableEq

/-- Embeds `Maintainer.from_dict`: missing `firstName` defaults to `"Unknown"`. -/
def Maintainer.from_dict (data : RawMaintainer) : Maintainer :=
  { first_name := data.firstName.getD "Unknown"
    last_name := data.lastName
    email := data.email }

/-- Per-environment flag state (`models.Environment`). -/
structure Environment where
  name : String
  is_on : Bool
  last_modified : Datetime
deriving DecidableEq

/-- Raw environment payload: optional `on` and `lastModified` (epoch ms). -/
structure RawEnv where
  isOn : Option Bool
  lastModified : Option Int
deriving DecidableEq

/-- Python `datetime.datetime.fromtimestamp`, modelled as the identity on exact
epoch seconds (see the module docstring for what this abstracts away). -/
def pyFromtimestamp (secs : ℚ) : Datetime := secs

/-- Embeds `Environment.from_dict`: `lastModified` defaults to `0` (epoch) and is
divided by 1000 before `fromtimestamp`; `on` defaults to `False`. -/
def Environment.from_dict (name : String) (data : RawEnv) : Environment :=
  { name := name
    is_on := data.isOn.getD false
    last_modified := pyFromtimestamp ((data.lastModified.getD 0 : ℚ) / 1000) }

/-- A LaunchDarkly feature flag (`models.Flag`). The `environments` dict is an
insertion-ordered association list from environment name to `Environment`. -/
structure Flag where
  key : String
  name : String
  archived : Bool
  temporary : Bool
  creation_date : Datetime
  maintainer : Maintainer
  environments : List (String × Environment)
deriving DecidableEq

/-- Raw flag payload: optional fields mirror `dict.get` defaults; `key` is the
only field accessed with `data["key"]` (raising on absence). -/
structure RawFlag where
  key : Option String
  name : Option String
  archived : Option Bool
  temporary : Option Bool
  creationDate : Option Int
  maintainer : Option RawMaintainer
  environments : Option (List (String × RawEnv))
deriving DecidableEq

/-- Embeds `Flag.from_dict`: returns `none` exactly when `data["key"]` raises
(`key` absent); every other field degrades to its default. -/
def Flag.from_dict (data : RawFlag) : Option Flag :=
  match data.key with
  | none => none
  | some k =>
    some
      { key := k
        name := data.name.getD ""
        archived := data.archived.getD false
        temporary := data.temporary.getD false
        creation_date := pyFromtimestamp ((data.creationDate.getD 0 : ℚ) / 1000)
        maintainer := Maintainer.from_dict (data.maintainer.getD ⟨none, none, none⟩)
        environments :=
          (data.environments.getD []).map
            (fun p => (p.1, Environment.from_dict p.1 p.2)) }

/-- Embeds `Flag.is_inactive_since`: true iff every environment was last modified
strictly before `threshold`; vacuously true with no environments. -/
def Flag.is_inactive_since (f : Flag) (threshold : Datetime) : Bool :=
  f.environments.all (fun p => decide (p.2.last_modified < threshold))

/-- Embeds `config.DAYS_PER_MONTH`. -/
def DAYS_PER_MONTH : ℤ := 30

/-- Embeds `FlagService.filter_by_archived`. -/
def FlagService.filter_by_archived (flags : List Flag) (archived : Bool) : List Flag :=
  flags.filter (fun f => f.archived == archived)

/-- Embeds `FlagService.filter_by_temporary`. -/
def FlagService.filter_by_temporary (flags : List Flag) (temporary : Bool) : List Flag :=
  flags.filter (fun f => f.temporary == temporary)

/-- Embeds `FlagService.filter_by_inactivity`. -/
def FlagService.filter_by_inactivity (flags : List Flag) (threshold : Datetime) : List Flag :=
  flags.filter (fun f => f.is_inactive_since threshold)

/-- Embeds `FlagService.filter_by_maintainer`: keeps flags whose maintainer first
name is in `maintainer_names`. -/
def FlagService.filter_by_maintainer (flags : List Flag) (maintainer_names : List String) : List Flag :=
  flags.filter (fun f => decide (f.maintainer.first_name ∈ maintainer_names))

/-- Embeds `FlagService.filter_by_exclude_list`: drops flags whose key is in
`exclude_keys`. -/
def FlagService.filter_by_exclude_list (flags : List Flag) (exclude_keys : List String) : List Flag :=
  flags.filter (fun f => decide (f.key ∉ exclude_keys))

/-- Embeds `FlagService.get_inactive_flags`. Here `now` stands for the call-time value of
`datetime.datetime.now()`; `timedelta(days = months * DAYS_PER_MONTH)` is
exactly `months * 30 * 86400` seconds. The Python truthiness tests
`if maintainers:` and `if exclude_list:` skip the stage for `None` and for an
empty list alike. -/
def FlagService.get_inactive_flags (flags : List Flag) (months : ℤ)
    (maintainers : Option (List String)) (exclude_list : Option (List String))
    (now : Datetime) : List Flag :=
  let modified_before : Datetime := now - ((months * DAYS_PER_MONTH * 86400 : ℤ) : ℚ)
  let result := FlagService.filter_by_archived flags false
  let result := FlagService.filter_by_temporary result true
  let result := FlagService.filter_by_inactivity result modified_before
  let result :=
    match maintainers with
    | some (m :: ms) => FlagService.filter_by_maintainer result (m :: ms)
    | _ => result
  match exclude_list with
  | some (e :: es) => FlagService.filter_by_exclude_list result (e :: es)
  | _ => result

/-- Embeds `cli.get_primary_env`: the flag's `environments` dict is abstracted to its
key list in insertion order. Returns the first preferred name present,
otherwise `list(environments.keys())[0]`; with no environments, the first
preference or `"production"`. -/
def get_primary_env (environments : List String) (env_order : List String) : String :=
  match environments with
  | [] =>
    match env_order with
    | [] => "production"
    | e :: _ => e
  | e0 :: _ =>
    match env_order.find? (fun e => decide (e ∈ environments)) with
    | some e => e
    | none => e0

/-- A location in a file (`file_search.FileLocation`). -/
structure FileLocation where
  file_path : String
  line_number : Nat
deriving DecidableEq

/-- A search key or a line of text, as a list of characters. -/
abbrev Chars := List Char

/-- The double-quote character. -/
def dq : Char := Char.ofNat 34

/-- The single-quote character. -/
def sq : Char := Char.ofNat 39

/-- Python string `startswith` on character lists: `leadsWith n h` is true iff
`h` begins with `n`. -/
def leadsWith : Chars → Chars → Bool
  | [], _ => true
  | _ :: _, [] => false
  | a :: as, b :: bs => a == b && leadsWith as bs

/-- Python substring containment (`needle in hay` on `str`). -/
def containsSub (needle : Chars) : Chars → Bool
  | [] => needle.isEmpty
  | h :: hs => leadsWith needle (h :: hs) || containsSub needle hs

/-- The double-quoted form of a key: `"key"`. -/
def quotedD (key : Chars) : Chars := dq :: (key ++ [dq])

/-- The single-quoted form of a key: `'key'`. -/
def quotedS (key : Chars) : Chars := sq :: (key ++ [sq])

/-- The scanner's per-line test, from `_search_file_with_encoding`:
`f'"{flag_key}"' in line or f"'{flag_key}'" in line`. -/
def lineMatches (line : Chars) (key : Chars) : Bool :=
  containsSub (quotedD key) line || containsSub (quotedS key) line

/-- Outcome of iterating a file line-by-line under one encoding: either the
whole decoded line list, or the lines yielded before a `UnicodeDecodeError`,
`OSError` or `PermissionError` cut the iteration short (an `open` failure is
`failAfter []`). This abstracts the file-system and codec state the scanner
runs against. -/
inductive ReadOutcome where
  | ok (lines : List Chars)
  | failAfter (lines : List Chars)
deriving DecidableEq

/-- The lines a scan under the given outcome actually processes. -/
def ReadOutcome.lines : ReadOutcome → List Chars
  | .ok ls => ls
  | .failAfter ls => ls

/-- The appends performed for one key by the scan loop
`for line_num, line in enumerate(f, 1): ...`, starting at line number `n`.
Each matching line appends once per occurrence of the key in `flag_keys`
(`m` copies, since duplicated keys share one dict entry). -/
def collectLocs (path : String) (key : Chars) (m : Nat) : List Chars → Nat → List FileLocation
  | [], _ => []
  | l :: ls, n =>
    (if lineMatches l key then List.replicate m ⟨path, n⟩ else []) ++
      collectLocs path key m ls (n + 1)

/-- Embeds `CodebaseScanner._search_file_with_encoding`, with the result dict
represented as a function from key to location list (a key absent from the
final `{k: v for k, v in results.items() if v}` maps to `[]`). -/
def search_file_with_encoding (path : String) (flag_keys : List Chars)
    (outcome : ReadOutcome) : Chars → List FileLocation :=
  fun key =>
    if decide (key ∈ flag_keys) then
      collectLocs path key (flag_keys.count key) outcome.lines 1
    else []

/-- Embeds `CodebaseScanner._search_file`: scan with UTF-8; if that produced an empty
result dict (`if not file_results:`), rescan with Latin-1. `utf8` and `latin1`
are the read outcomes of the same file under the two encodings. -/
def search_file (path : String) (flag_keys : List Chars)
    (utf8 latin1 : ReadOutcome) : Chars → List FileLocation :=
  let r1 := search_file_with_encoding path flag_keys utf8
  if flag_keys.all (fun k => (r1 k).isEmpty) then
    search_file_with_encoding path flag_keys latin1
  else r1

/-- Membership in the classifier result with neither optional filter supplied,
characterised by the three mandatory pipeline stages. Shared helper. -/
theorem mem_get_inactive_flags_iff (flags : List Flag) (months : ℤ) (now : Datetime)
    (f : Flag) :
    f ∈ FlagService.get_inactive_flags flags months none none now ↔
      f ∈ flags ∧ f.archived = false ∧ f.temporary = true ∧
        ∀ p ∈ f.environments,
          p.2.last_modified < now - ((months * DAYS_PER_MONTH * 86400 : ℤ) : ℚ) := by
  simp only [FlagService.get_inactive_flags, FlagService.filter_by_archived,
    FlagService.filter_by_temporary, FlagService.filter_by_inactivity,
    Flag.is_inactive_since, List.mem_filter, List.all_eq_true, beq_iff_eq,
    decide_eq_true_eq]
  tauto

/-- C1: with no maintainer or exclude filters, a flag with at least one
environment is returned by `get_inactive_flags` iff it is not archived, is
temporary, and every environment was last modified strictly before
`now - months*30 days`; hence one environment modified at or after the
threshold excludes it. -/
theorem get_inactive_flags_mem_iff (flags : List Flag) (months : ℤ) (now : Datetime)
    (f : Flag) (hmem : f ∈ flags) (_henv : f.environments ≠ []) :
    f ∈ FlagService.get_inactive_flags flags months none none now ↔
      f.archived = false ∧ f.temporary = true ∧
        ∀ p ∈ f.environments,
          p.2.last_modified < now - ((months * 30 * 86400 : ℤ) : ℚ) := by
  have h := mem_get_inactive_flags_iff flags months now f
  simp only [DAYS_PER_MONTH] at h
  rw [h]
  tauto

/-- Witness for C1 at a concrete stale flag, `months = 3`,
`now = 10^7` seconds. -/
theorem get_inactive_flags_mem_iff_witness :
    (⟨"stale-flag", "", false, true, 0, ⟨"Unknown", none, none⟩,
        [("production", ⟨"production", false, 0⟩)]⟩ : Flag) ∈
      FlagService.get_inactive_flags
        [⟨"stale-flag", "", false, true, 0, ⟨"Unknown", none, none⟩,
          [("production", ⟨"production", false, 0⟩)]⟩] 3 none none 10000000 :=
  (get_inactive_flags_mem_iff _ 3 10000000 _ (by decide) (by decide)).mpr
    ⟨rfl, rfl, by norm_num⟩

/-- C2: a non-archived temporary flag with an empty environments mapping is
classified inactive by `get_inactive_flags` for every `months` value. -/
theorem get_inactive_flags_empty_env (flags : List Flag) (months : ℤ) (now : Datetime)
    (f : Flag) (hmem : f ∈ flags) (henv : f.environments = [])
    (ha : f.archived = false) (ht : f.temporary = true) :
    f ∈ FlagService.get_inactive_flags flags months none none now := by
  rw [mem_get_inactive_flags_iff]
  refine ⟨hmem, ha, ht, ?_⟩
  simp [henv]

/-- Witness for C2 at a concrete environment-free flag and `months = 1000`. -/
theorem get_inactive_flags_empty_env_witness :
    (⟨"bare-flag", "", false, true, 0, ⟨"Unknown", none, none⟩, []⟩ : Flag) ∈
      FlagService.get_inactive_flags
        [⟨"bare-flag", "", false, true, 0, ⟨"Unknown", none, none⟩, []⟩]
        1000 none none 0 :=
  get_inactive_flags_empty_env _ 1000 0 _ (by decide) rfl rfl rfl

/-- Two successive `List.filter`s commute. Shared helper. -/
theorem filter_filter_comm {α : Type} (p q : α → Bool) (l : List α) :
    (l.filter q).filter p = (l.filter p).filter q := by
  induction l with
  | nil => rfl
  | cons a t ih => cases hp : p a <;> cases hq : q a <;>
      simp [List.filter_cons, hp, hq, ih]

/-- C9: `filter_by_exclude_list` removes every flag whose key is in the
exclude list, and commutes with each of the other filter stages run over the
same candidate set. -/
theorem filter_by_exclude_removes_and_commutes (flags : List Flag)
    (ex : List String) (k : String) (hk : k ∈ ex) :
    (∀ f ∈ FlagService.filter_by_exclude_list flags ex, f.key ≠ k) ∧
    (∀ a, FlagService.filter_by_exclude_list (FlagService.filter_by_archived flags a) ex =
      FlagService.filter_by_archived (FlagService.filter_by_exclude_list flags ex) a) ∧
    (∀ t, FlagService.filter_by_exclude_list (FlagService.filter_by_temporary flags t) ex =
      FlagService.filter_by_temporary (FlagService.filter_by_exclude_list flags ex) t) ∧
    (∀ thr, FlagService.filter_by_exclude_list (FlagService.filter_by_inactivity flags thr) ex =
      FlagService.filter_by_inactivity (FlagService.filter_by_exclude_list flags ex) thr) ∧
    (∀ names, FlagService.filter_by_exclude_list (FlagService.filter_by_maintainer flags names) ex =
      FlagService.filter_by_maintainer (FlagService.filter_by_exclude_list flags ex) names) := by
  refine ⟨?_, ?_, ?_, ?_, ?_⟩
  · intro f hf hkey
    simp only [FlagService.filter_by_exclude_list, List.mem_filter,
      decide_eq_true_eq] at hf
    exact hf.2 (hkey ▸ hk)
  · intro a
    exact filter_filter_comm _ _ _
  · intro t
    exact filter_filter_comm _ _ _
  · intro thr
    exact filter_filter_comm _ _ _
  · intro names
    exact filter_filter_comm _ _ _

/-- Witness for C9: the commutation equation with `filter_by_archived`
instantiated at a one-flag list and exclude list `["k"]`. -/
theorem filter_by_exclude_removes_and_commutes_witness :
    FlagService.filter_by_exclude_list
        (FlagService.filter_by_archived
          [⟨"k", "", false, true, 0, ⟨"Unknown", none, none⟩, []⟩] false) ["k"] =
      FlagService.filter_by_archived
        (FlagService.filter_by_exclude_list
          [⟨"k", "", false, true, 0, ⟨"Unknown", none, none⟩, []⟩] ["k"]) false :=
  (filter_by_exclude_removes_and_commutes _ ["k"] "k" (by decide)).2.1 false

/-- C10: for every argument combination, `get_inactive_flags` returns a
subsequence of its input list: every returned flag occurs in the input, in
the input's relative order, with no position reused (the pure model also
reflects that the Python list comprehensions never mutate the input). -/
theorem get_inactive_flags_sublist (flags : List Flag) (months : ℤ)
    (maintainers exclude_list : Option (List String)) (now : Datetime) :
    List.Sublist (FlagService.get_inactive_flags flags months maintainers exclude_list now)
      flags := by
  rcases maintainers with _ | ⟨_ | ⟨m, ms⟩⟩ <;>
    rcases exclude_list with _ | ⟨_ | ⟨e, es⟩⟩ <;>
      simp only [FlagService.get_inactive_flags, FlagService.filter_by_archived,
        FlagService.filter_by_temporary, FlagService.filter_by_inactivity,
        FlagService.filter_by_maintainer, FlagService.filter_by_exclude_list] <;>
      (repeat refine List.Sublist.trans (List.filter_sublist _) ?_) <;>
      exact List.Sublist.refl _

/-- With a prefix of the preference order all absent from `envs` and then a
present name `e`, the resolver's scan finds `e`. Shared helper. -/
theorem find?_first_present (envs : List String) (pre : List String) (e : String)
    (post : List String) (hpre : ∀ p ∈ pre, p ∉ envs) (he : e ∈ envs) :
    (pre ++ e :: post).find? (fun x => decide (x ∈ envs)) = some e := by
  induction pre with
  | nil =>
    rw [List.nil_append]
    exact List.find?_cons_of_pos _ (by simpa using he)
  | cons p ps ih =>
    rw [List.cons_append, List.find?_cons_of_neg]
    · exact ih fun q hq => hpre q (List.mem_cons_of_mem p hq)
    · simpa using hpre p (List.mem_cons_self p ps)

/-- Counterexample to C4: with environments inserted in the order
`["zeta", "alpha"]` and none of the preferred names present, the resolver
returns the first insertion-order key `"zeta"`, not the lexicographically
least key `"alpha"` that the claim requires. -/
theorem get_primary_env_not_lexicographic :
    get_primary_env ["zeta", "alpha"] ["production"] = "zeta" ∧
      ("alpha" : String) < "zeta" ∧
      get_primary_env ["zeta", "alpha"] ["production"] ≠ "alpha" := by
  refine ⟨rfl, ?_, by decide⟩
  rw [String.lt_iff_toList_lt]
  exact List.Lex.rel (by decide)

/-- C4 as amended: the resolver returns the first name in the preference
order present among the flag's environments; if no preferred name is present
it returns the first environment key in insertion order (not the
lexicographic minimum); with no environments it returns the head of the
preference order, or `"production"` when that is empty too. -/
theorem get_primary_env_spec (envs order : List String) :
    (envs = [] → order = [] → get_primary_env envs order = "production") ∧
    (∀ o rest, envs = [] → order = o :: rest → get_primary_env envs order = o) ∧
    (∀ pre e post, order = pre ++ e :: post → e ∈ envs →
      (∀ p ∈ pre, p ∉ envs) → get_primary_env envs order = e) ∧
    (∀ e0 rest, envs = e0 :: rest → (∀ o ∈ order, o ∉ envs) →
      get_primary_env envs order = e0) := by
  refine ⟨?_, ?_, ?_, ?_⟩
  · rintro rfl rfl
    rfl
  · rintro o rest rfl rfl
    rfl
  · rintro pre e post rfl he hpre
    cases envs with
    | nil => simp at he
    | cons e0 es =>
      simp only [get_primary_env]
      rw [find?_first_present (e0 :: es) pre e post hpre he]
  · rintro e0 rest rfl hnone
    simp only [get_primary_env]
    have hfind : order.find? (fun x => decide (x ∈ e0 :: rest)) = none :=
      List.find?_eq_none.mpr fun x hx => by simpa using hnone x hx
    rw [hfind]

/-- Witness for C4's amended theorem: the spec's own example, environments
`["dev", "staging"]` with order `["production", "staging", "dev"]`
resolves to `"staging"`. -/
theorem get_primary_env_spec_witness :
    get_primary_env ["dev", "staging"] ["production", "staging", "dev"] = "staging" :=
  (get_primary_env_spec ["dev", "staging"] ["production", "staging", "dev"]).2.2.1
    ["production"] "staging" ["dev"] rfl (by decide) (by decide)

/-- Spec of `leadsWith`: `leadsWith n h` holds iff `h` starts with `n`. Shared helper. -/
theorem leadsWith_iff (n : Chars) : ∀ h : Chars, leadsWith n h = true ↔ ∃ t, h = n ++ t := by
  induction n with
  | nil =>
    intro h
    simp [leadsWith]
  | cons a as ih =>
    intro h
    cases h with
    | nil => simp [leadsWith]
    | cons b bs =>
      simp only [leadsWith, Bool.and_eq_true, beq_iff_eq, ih, List.cons_append]
      constructor
      · rintro ⟨rfl, t, rfl⟩
        exact ⟨t, rfl⟩
      · rintro ⟨t, heq⟩
        injection heq with h1 h2
        exact ⟨h1.symm, t, h2⟩

/-- Spec of `containsSub`: `containsSub n h` is Python substring containment: `h` holds `n` as a
contiguous run. Shared helper. -/
theorem containsSub_iff (n : Chars) : ∀ h : Chars,
    containsSub n h = true ↔ ∃ pre post, h = pre ++ n ++ post := by
  intro h
  induction h with
  | nil =>
    simp only [containsSub, List.isEmpty_iff]
    constructor
    · rintro rfl
      exact ⟨[], [], rfl⟩
    · rintro ⟨pre, post, heq⟩
      rcases List.append_eq_nil.mp (List.append_eq_nil.mp heq.symm).1 with ⟨-, h2⟩
      exact h2
  | cons c hs ih =>
    simp only [containsSub, Bool.or_eq_true, ih, leadsWith_iff]
    constructor
    · rintro (⟨t, heq⟩ | ⟨pre, post, rfl⟩)
      · exact ⟨[], t, by simpa using heq⟩
      · exact ⟨c :: pre, post, rfl⟩
    · rintro ⟨pre, post, heq⟩
      cases pre with
      | nil =>
        exact Or.inl ⟨post, by simpa using heq⟩
      | cons p ps =>
        injection heq with h1 h2
        exact Or.inr ⟨ps, post, h2⟩

/-- The per-line test records a match exactly when the line contains the key
wrapped in a double-quote pair or in a single-quote pair. Shared helper. -/
theorem lineMatches_iff (l key : Chars) :
    lineMatches l key = true ↔
      (∃ pre post, l = pre ++ quotedD key ++ post) ∨
      (∃ pre post, l = pre ++ quotedS key ++ post) := by
  simp [lineMatches, containsSub_iff]

/-- Membership in the scan loop's accumulated locations, for a scan starting
at line number `s`. Shared helper. -/
theorem mem_collectLocs (path : String) (key : Chars) (m : Nat) :
    ∀ (lines : List Chars) (s : Nat) (loc : FileLocation),
      loc ∈ collectLocs path key m lines s ↔
        0 < m ∧ ∃ i l, lines.get? i = some l ∧ lineMatches l key = true ∧
          loc = ⟨path, s + i⟩ := by
  intro lines
  induction lines with
  | nil =>
    intro s loc
    simp [collectLocs]
  | cons l0 ls ih =>
    intro s loc
    have hstep : collectLocs path key m (l0 :: ls) s =
        (if lineMatches l0 key then List.replicate m ⟨path, s⟩ else []) ++
          collectLocs path key m ls (s + 1) := rfl
    rw [hstep, List.mem_append, ih]
    constructor
    · rintro (hin | ⟨hmpos, i, l, hget, hml, rfl⟩)
      · by_cases hm : lineMatches l0 key = true
        · rw [if_pos hm, List.mem_replicate] at hin
          obtain ⟨hm0, rfl⟩ := hin
          exact ⟨Nat.pos_of_ne_zero hm0, 0, l0, rfl, hm, by simp⟩
        · rw [if_neg hm] at hin
          exact absurd hin (List.not_mem_nil loc)
      · refine ⟨hmpos, i + 1, l, by simpa using hget, hml, ?_⟩
        congr 1
        omega
    · rintro ⟨hmpos, i, l, hget, hml, rfl⟩
      cases i with
      | zero =>
        left
        have hl : l0 = l := by simpa using hget
        subst hl
        rw [if_pos hml, List.mem_replicate]
        exact ⟨Nat.pos_iff_ne_zero.mp hmpos, by simp⟩
      | succ j =>
        right
        refine ⟨hmpos, j, l, by simpa using hget, hml, ?_⟩
        congr 1
        omega

/-- C6: for a key among the searched keys, the scanner records location
`(path, n)` iff line `n` (1-based) of the processed lines contains the key
enclosed in a double-quote pair or a single-quote pair; and the concrete line
`flag_value = "my-flag-two"` does not match the key `my-flag`. -/
theorem scanner_quoted_match_iff (path : String) (flag_keys : List Chars)
    (outcome : ReadOutcome) (key : Chars) (n : Nat) (hkey : key ∈ flag_keys) :
    ((⟨path, n⟩ : FileLocation) ∈ search_file_with_encoding path flag_keys outcome key ↔
      1 ≤ n ∧ ∃ l, outcome.lines.get? (n - 1) = some l ∧
        ((∃ pre post, l = pre ++ quotedD key ++ post) ∨
         (∃ pre post, l = pre ++ quotedS key ++ post))) ∧
    lineMatches ("flag_value = \"my-flag-two\"").data ("my-flag").data = false := by
  constructor
  · rw [search_file_with_encoding, if_pos (by simpa using hkey), mem_collectLocs]
    have hc : 0 < flag_keys.count key := List.count_pos_iff.mpr hkey
    constructor
    · rintro ⟨-, i, l, hget, hml, heq⟩
      injection heq with h1 h2
      refine ⟨by omega, l, ?_, (lineMatches_iff l key).mp hml⟩
      rw [show n - 1 = i by omega]
      exact hget
    · rintro ⟨hn, l, hget, hq⟩
      refine ⟨hc, n - 1, l, hget, (lineMatches_iff l key).mpr hq, ?_⟩
      congr 1
      omega
  · decide

/-- Witness for C6: key `k` among the searched keys, matched at line 1 of a
one-line file containing `"k"`. -/
theorem scanner_quoted_match_iff_witness :
    (⟨"f", 1⟩ : FileLocation) ∈
      search_file_with_encoding "f" [['k']]
        (ReadOutcome.ok [[dq, 'k', dq]]) ['k'] :=
  ((scanner_quoted_match_iff "f" [['k']] (ReadOutcome.ok [[dq, 'k', dq]]) ['k'] 1
      (by decide)).1).mpr
    ⟨by decide, [dq, 'k', dq], rfl, Or.inl ⟨[], [], rfl⟩⟩

/-- Counterexample to C3: the UTF-8 pass decodes one matching line and then
hits a decode error (`failAfter`); because its result dict is non-empty, the
scanner does NOT re-attempt the file with Latin-1, contradicting the claim
that a decoding failure at any point triggers the Latin-1 re-attempt (here
the Latin-1 pass would have found a second match). -/
theorem search_file_no_retry_after_partial_match :
    search_file "f" [['k']] (ReadOutcome.failAfter [[dq, 'k', dq]])
        (ReadOutcome.ok [[dq, 'k', dq], [dq, 'k', dq]]) ['k'] = [⟨"f", 1⟩] ∧
    search_file_with_encoding "f" [['k']]
        (ReadOutcome.ok [[dq, 'k', dq], [dq, 'k', dq]]) ['k'] =
      [⟨"f", 1⟩, ⟨"f", 2⟩] ∧
    search_file "f" [['k']] (ReadOutcome.failAfter [[dq, 'k', dq]])
        (ReadOutcome.ok [[dq, 'k', dq], [dq, 'k', dq]]) ['k'] ≠
      search_file_with_encoding "f" [['k']]
        (ReadOutcome.ok [[dq, 'k', dq], [dq, 'k', dq]]) ['k'] := by
  refine ⟨by decide, by decide, by decide⟩

/-- C3 as amended: the scanner re-attempts the file with Latin-1 exactly when
the UTF-8 attempt produced an empty result dict (no matches before a possible
decode/IO failure, or genuinely no matches); when the UTF-8 attempt recorded
at least one match, its (possibly partial) results are returned and Latin-1
is not consulted. In either case no error is surfaced: the scan is total and
a skipped file just contributes no matches. -/
theorem search_file_fallback_spec (path : String) (flag_keys : List Chars)
    (utf8 latin1 : ReadOutcome) :
    ((∀ k ∈ flag_keys, search_file_with_encoding path flag_keys utf8 k = []) →
      ∀ k, search_file path flag_keys utf8 latin1 k =
        search_file_with_encoding path flag_keys latin1 k) ∧
    ((∃ k ∈ flag_keys, search_file_with_encoding path flag_keys utf8 k ≠ []) →
      ∀ k, search_file path flag_keys utf8 latin1 k =
        search_file_with_encoding path flag_keys utf8 k) := by
  constructor
  · intro hempty k
    have hall : flag_keys.all
        (fun k => (search_file_with_encoding path flag_keys utf8 k).isEmpty) = true := by
      rw [List.all_eq_true]
      intro x hx
      simp [hempty x hx]
    simp [search_file, hall]
  · rintro ⟨k0, hk0, hne⟩ k
    have hall : flag_keys.all
        (fun k => (search_file_with_encoding path flag_keys utf8 k).isEmpty) = false := by
      rw [List.all_eq_false]
      exact ⟨k0, hk0, by simpa [List.isEmpty_iff] using hne⟩
    simp [search_file, hall]

/-- Witness for C3's amended theorem: a UTF-8 attempt with no matches falls
back to the Latin-1 scan of the same file. -/
theorem search_file_fallback_spec_witness :
    search_file "f" [['k']] (ReadOutcome.ok []) (ReadOutcome.ok [[dq, 'k', dq]]) ['k'] =
      search_file_with_encoding "f" [['k']] (ReadOutcome.ok [[dq, 'k', dq]]) ['k'] :=
  (search_file_fallback_spec "f" [['k']] (ReadOutcome.ok [])
      (ReadOutcome.ok [[dq, 'k', dq]])).1 (by decide) ['k']

/-- C7: parsing a raw flag payload fails iff the `key` field is absent; with
`key` present, parsing succeeds and each remaining absent field degrades to
its documented default: empty `name`, `archived = false`,
`temporary = false`, maintainer first name `"Unknown"` (also when the
`_maintainer` dict is present but lacks `firstName`), empty `environments`. -/
theorem flag_parse_fails_iff_key_absent (raw : RawFlag) :
    (Flag.from_dict raw = none ↔ raw.key = none) ∧
    (∀ k, raw.key = some k →
      ∃ fl, Flag.from_dict raw = some fl ∧ fl.key = k ∧
        (raw.name = none → fl.name = "") ∧
        (raw.archived = none → fl.archived = false) ∧
        (raw.temporary = none → fl.temporary = false) ∧
        (raw.maintainer = none → fl.maintainer.first_name = "Unknown") ∧
        (∀ m, raw.maintainer = some m → m.firstName = none →
          fl.maintainer.first_name = "Unknown") ∧
        (raw.environments = none → fl.environments = [])) := by
  constructor
  · cases hk : raw.key <;> simp [Flag.from_dict, hk]
  · intro k hk
    obtain ⟨ok, oname, oarch, otemp, ocd, om, oenv⟩ := raw
    simp only at hk
    subst hk
    refine ⟨_, rfl, rfl, ?_, ?_, ?_, ?_, ?_, ?_⟩
    · rintro rfl
      rfl
    · rintro rfl
      rfl
    · rintro rfl
      rfl
    · rintro rfl
      rfl
    · rintro m rfl hfn
      simp [Maintainer.from_dict, hfn]
    · rintro rfl
      rfl

/-- Witness for C7 at the minimal payload holding only `key`. -/
theorem flag_parse_fails_iff_key_absent_witness :
    ∃ fl, Flag.from_dict ⟨some "k", none, none, none, none, none, none⟩ = some fl ∧
      fl.key = "k" ∧ fl.name = "" ∧ fl.archived = false ∧ fl.temporary = false ∧
      fl.maintainer.first_name = "Unknown" ∧ fl.environments = [] := by
  obtain ⟨fl, h1, h2, h3, h4, h5, h6, -, h7⟩ :=
    (flag_parse_fails_iff_key_absent ⟨some "k", none, none, none, none, none, none⟩).2
      "k" rfl
  exact ⟨fl, h1, h2, h3 rfl, h4 rfl, h5 rfl, h6 rfl, h7 rfl⟩

/-- C8: an environment payload without `lastModified` parses successfully
(the parser is total) and gets the timestamp derived from millisecond epoch
`0`, i.e. the epoch itself — "infinitely stale". -/
theorem env_missing_lastModified_is_epoch (name : String) (raw : RawEnv)
    (h : raw.lastModified = none) :
    (Environment.from_dict name raw).last_modified = pyFromtimestamp ((0 : ℚ) / 1000) ∧
    (Environment.from_dict name raw).last_modified = 0 := by
  constructor
  · simp [Environment.from_dict, h]
  · simp [Environment.from_dict, h, pyFromtimestamp]

/-- Witness for C8 at a concrete payload carrying only `on = true`. -/
theorem env_missing_lastModified_is_epoch_witness :
    (Environment.from_dict "production" ⟨some true, none⟩).last_modified = 0 :=
  (env_missing_lastModified_is_epoch "production" ⟨some true, none⟩ rfl).2

end LdAudit
